import Mathlib

/-!
Verification of the typed-buffer ("block") binding layer of the gsl
repository.

The repository's `ext/block.c` is a code-generation driver: it includes
the shared template `block_source.c` three times, once per element kind,
under the kind-selecting macros BASE_DOUBLE, BASE_INT and BASE_UCHAR,
each inclusion bracketed by `templates_on.h` / `templates_off.h`.  The
first section embeds that preprocessor structure.  The second section
models the Buffer/View data type that the template instantiates, as
described by the design specification (the template body itself is not
part of the checked sources).
-/

/-- The three element kinds of the block data type.  They correspond to
the kind-selecting macros of `ext/block.c`: `Float64` to BASE_DOUBLE,
`Int32` to BASE_INT, `UInt8` to BASE_UCHAR. -/
inductive Kind where
  | Float64
  | Int32
  | UInt8
  deriving DecidableEq, BEq

/-- A preprocessor-relevant line of `ext/block.c`: an include directive
(with the included file's name), a define or undef of one of the three
kind-selecting macros, or the HAVE_NARRAY_H conditional brackets. -/
inductive CLine where
  | inc (f : String)
  | defBase (k : Kind)
  | undefBase (k : Kind)
  | ifdefNarray
  | endifNarray
  deriving DecidableEq

/-- The bracketed instantiation group for one kind, as it appears in
`ext/block.c`: define the kind macro, include `templates_on.h`, include
the template `block_source.c`, include `templates_off.h`, undefine the
kind macro. -/
def kindGroup (k : Kind) : List CLine :=
  [CLine.defBase k, CLine.inc "templates_on.h", CLine.inc "block_source.c",
   CLine.inc "templates_off.h", CLine.undefBase k]

/-- The ordinary header includes at the top of `ext/block.c`
(lines 17-25), before the template instantiations. -/
def headerLines : List CLine :=
  [CLine.inc "rb_gsl_config.h", CLine.inc "rb_gsl_array.h",
   CLine.inc "rb_gsl_histogram.h", CLine.inc "rb_gsl_complex.h",
   CLine.inc "rb_gsl_poly.h",
   CLine.ifdefNarray, CLine.inc "rb_gsl_with_narray.h", CLine.endifNarray]

/-- The preprocessor-relevant lines of `ext/block.c`, in file order
(lines 17-43 of the source). -/
def blockC : List CLine :=
  [CLine.inc "rb_gsl_config.h", CLine.inc "rb_gsl_array.h",
   CLine.inc "rb_gsl_histogram.h", CLine.inc "rb_gsl_complex.h",
   CLine.inc "rb_gsl_poly.h",
   CLine.ifdefNarray, CLine.inc "rb_gsl_with_narray.h", CLine.endifNarray,
   CLine.defBase Kind.Float64, CLine.inc "templates_on.h",
   CLine.inc "block_source.c", CLine.inc "templates_off.h",
   CLine.undefBase Kind.Float64,
   CLine.defBase Kind.Int32, CLine.inc "templates_on.h",
   CLine.inc "block_source.c", CLine.inc "templates_off.h",
   CLine.undefBase Kind.Int32,
   CLine.defBase Kind.UInt8, CLine.inc "templates_on.h",
   CLine.inc "block_source.c", CLine.inc "templates_off.h",
   CLine.undefBase Kind.UInt8]

/-- Scan a line list with the set of currently defined kind macros and
record that set at every inclusion of `block_source.c`. -/
def envsAt : List CLine → List Kind → List (List Kind)
  | [], _ => []
  | CLine.inc f :: rest, env =>
      if f = "block_source.c" then env :: envsAt rest env else envsAt rest env
  | CLine.defBase k :: rest, env => envsAt rest (env ++ [k])
  | CLine.undefBase k :: rest, env => envsAt rest (env.filter (fun k2 => !(k2 == k)))
  | CLine.ifdefNarray :: rest, env => envsAt rest env
  | CLine.endifNarray :: rest, env => envsAt rest env

/-- The set of kind macros still defined after scanning the whole line
list. -/
def finalDefs : List CLine → List Kind → List Kind
  | [], env => env
  | CLine.inc _ :: rest, env => finalDefs rest env
  | CLine.defBase k :: rest, env => finalDefs rest (env ++ [k])
  | CLine.undefBase k :: rest, env => finalDefs rest (env.filter (fun k2 => !(k2 == k)))
  | CLine.ifdefNarray :: rest, env => finalDefs rest env
  | CLine.endifNarray :: rest, env => finalDefs rest env

/-- Number of inclusions of a given file in a line list. -/
def countInc (f : String) : List CLine → Nat
  | [] => 0
  | CLine.inc g :: rest => (if g = f then 1 else 0) + countInc f rest
  | _ :: rest => countInc f rest

/-- C1: `ext/block.c` includes the shared template `block_source.c`
exactly three times, and the kind-macro environment at the three
inclusions is, in order, exactly {BASE_DOUBLE}, {BASE_INT},
{BASE_UCHAR}: one inclusion per element kind (double-precision float,
integer, unsigned byte), each under a different single kind-selecting
macro, and the three environments are pairwise distinct. -/
theorem blockC_three_kind_instantiations :
    countInc "block_source.c" blockC = 3 ∧
    envsAt blockC [] = [[Kind.Float64], [Kind.Int32], [Kind.UInt8]] ∧
    (envsAt blockC []).Nodup := by
  refine ⟨by decide, by decide, by decide⟩

/-- C10: `ext/block.c` is exactly its header includes followed by the
three bracketed instantiation groups, one per kind in order
BASE_DOUBLE, BASE_INT, BASE_UCHAR; each group defines its kind macro
immediately before including `templates_on.h`, then `block_source.c`,
then `templates_off.h`, and undefines it immediately after.
Consequently at every inclusion of `block_source.c` exactly one kind
macro is defined, the header part performs no template inclusion, and
no kind macro remains defined at the end of the file (no leakage
between instantiations). -/
theorem blockC_clean_bracketed_instantiation :
    blockC = headerLines ++ kindGroup Kind.Float64 ++ kindGroup Kind.Int32 ++
      kindGroup Kind.UInt8 ∧
    (∀ env : List Kind, envsAt (kindGroup Kind.Float64) env = [env ++ [Kind.Float64]] ∧
      envsAt (kindGroup Kind.Int32) env = [env ++ [Kind.Int32]] ∧
      envsAt (kindGroup Kind.UInt8) env = [env ++ [Kind.UInt8]]) ∧
    envsAt blockC [] = [[Kind.Float64], [Kind.Int32], [Kind.UInt8]] ∧
    envsAt headerLines [] = [] ∧
    finalDefs blockC [] = [] := by
  refine ⟨by decide, ?_, by decide, by decide, by decide⟩
  intro env
  refine ⟨?_, ?_, ?_⟩ <;> simp [kindGroup, envsAt]

/-- Failure taxonomy of the buffer design (spec section 7). -/
inductive Err where
  | OutOfRange
  | InvalidRange
  | AllocationFailure
  | KindMismatch
  | ImmutableBuffer
  deriving DecidableEq

/-- Truncation of a rational toward zero, the fixed float-to-integer
conversion policy of the model. -/
def truncToZero (q : Rat) : Int :=
  if 0 ≤ q then ⌊q⌋ else -⌊-q⌋

/-- Clamp an integer into the inclusive range [lo, hi]. -/
def clampI (lo hi x : Int) : Int := max lo (min hi x)

/-- Modelled from the spec: the representable-range coercion of a
numeric value into an element kind (`block_source.c`, which implements
the per-kind conversions, is not among the checked sources).  Float64
elements are modelled as exact rationals, so their coercion is the
identity; integer kinds truncate toward zero and clamp to the kind's
representable range. -/
def coerce : Kind → Rat → Rat
  | Kind.Float64, q => q
  | Kind.Int32, q => ((clampI (-(2 ^ 31)) (2 ^ 31 - 1) (truncToZero q) : Int) : Rat)
  | Kind.UInt8, q => ((clampI 0 255 (truncToZero q) : Int) : Rat)

/-- A value is representable in a kind when storing it there loses
nothing: any rational for Float64 (elements are modelled as exact
rationals), integers in the kind's range for Int32 and UInt8. -/
def representable : Kind → Rat → Prop
  | Kind.Float64, _ => True
  | Kind.Int32, q => q.den = 1 ∧ -(2 ^ 31) ≤ q.num ∧ q.num ≤ 2 ^ 31 - 1
  | Kind.UInt8, q => q.den = 1 ∧ 0 ≤ q.num ∧ q.num ≤ 255

/-- Element read from a storage cell list, with 0 for a missing cell. -/
def nthD : List Rat → Nat → Rat
  | [], _ => 0
  | x :: _, 0 => x
  | _ :: t, n + 1 => nthD t n

/-- Overwrite one storage cell of a cell list (no-op out of range). -/
def setNth : List Rat → Nat → Rat → List Rat
  | [], _, _ => []
  | _ :: t, 0, y => y :: t
  | x :: t, n + 1, y => x :: setNth t n y

/-- The n cells of a storage list starting at index s, in index order. -/
def nthFrom (l : List Rat) : Nat → Nat → List Rat
  | _, 0 => []
  | s, n + 1 => nthD l s :: nthFrom l (s + 1) n

/-- Modelled from the spec: a typed Buffer — element kind, element
count, optional contiguous storage (cells as rationals; `none` is a
null storage pointer), and an owning flag (`false` for a Buffer that
wraps an external region).  The template body `block_source.c` that
implements the block type is not among the checked sources. -/
structure Buffer where
  kind : Kind
  count : Nat
  storage : Option (List Rat)
  owning : Bool
  deriving DecidableEq

/-- The storage cells of a Buffer (empty for a null storage pointer). -/
def stor (b : Buffer) : List Rat := b.storage.getD []

/-- Structural invariant of a Buffer: the storage pointer is non-null
and holds exactly `count` cells. -/
def Buffer.wf (b : Buffer) : Prop :=
  ∃ l, b.storage = some l ∧ l.length = b.count

/-- Modelled from the spec: `allocate(kind, count)` — new owning Buffer
with `count` elements, zero-filled (the spec leaves the contents
unspecified and allows zero-filling). -/
def allocate (k : Kind) (count : Nat) : Buffer :=
  { kind := k, count := count, storage := some (List.replicate count 0),
    owning := true }

/-- Modelled from the spec: `fromValues(kind, xs)` — new owning Buffer
copying the sequence, each value coerced to the kind's representable
range; length equals the sequence length. -/
def fromValues (k : Kind) (xs : List Rat) : Buffer :=
  { kind := k, count := xs.length, storage := some (xs.map (coerce k)),
    owning := true }

/-- Modelled from the spec: `wrap(kind, region, count)` — non-owning
Buffer aliasing an externally owned region. -/
def wrap (k : Kind) (region : List Rat) : Buffer :=
  { kind := k, count := region.length, storage := some region,
    owning := false }

/-- Modelled from the spec: `get(index)` — the element at `index`, or
`OutOfRange` when `index < 0` or `index ≥ count`. -/
def Buffer.get (b : Buffer) (i : Int) : Except Err Rat :=
  if 0 ≤ i ∧ i < (b.count : Int) then Except.ok (nthD (stor b) i.toNat)
  else Except.error Err.OutOfRange

/-- Modelled from the spec: `set(index, value)` — overwrite the element
at `index` with the value converted to the Buffer's kind; `OutOfRange`
on an invalid index. -/
def Buffer.set (b : Buffer) (i : Int) (x : Rat) : Except Err Buffer :=
  if 0 ≤ i ∧ i < (b.count : Int) then
    Except.ok { b with storage := some (setNth (stor b) i.toNat (coerce b.kind x)) }
  else Except.error Err.OutOfRange

/-- A View: starting offset, logical length and stride over a parent
Buffer's storage (the parent is passed explicitly to the View
operations, modelling the shared storage). -/
structure View where
  offset : Int
  length : Int
  stride : Int
  deriving DecidableEq

/-- Modelled from the spec: `slice(start, length, stride)` — a View
over the Buffer, or `InvalidRange` when the slicing invariant
`start + (length-1)*stride < count` (positive stride) would be
violated, when `stride = 0`, or when the parameters are otherwise
malformed (negative start or stride, zero or negative length; negative
strides and empty views are not supported).  The parameters are never
clamped: an accepted View carries them verbatim. -/
def Buffer.slice (b : Buffer) (start len stride : Int) : Except Err View :=
  if stride = 0 ∨ stride < 0 ∨ start < 0 ∨ len < 1 ∨
      (b.count : Int) ≤ start + (len - 1) * stride then
    Except.error Err.InvalidRange
  else Except.ok { offset := start, length := len, stride := stride }

/-- Physical parent-buffer index of a View's logical index. -/
def View.phys (v : View) (i : Int) : Int := v.offset + i * v.stride

/-- Modelled from the spec: reading a View element reads the parent
Buffer cell at `offset + i * stride`. -/
def View.get (v : View) (i : Int) (b : Buffer) : Except Err Rat :=
  if 0 ≤ i ∧ i < v.length then b.get (v.phys i)
  else Except.error Err.OutOfRange

/-- Modelled from the spec: writing a View element writes the parent
Buffer cell at `offset + i * stride`, mutating the shared storage. -/
def View.set (v : View) (i : Int) (x : Rat) (b : Buffer) : Except Err Buffer :=
  if 0 ≤ i ∧ i < v.length then b.set (v.phys i) x
  else Except.error Err.OutOfRange

/-- Modelled from the spec: `castTo(otherKind)` — new owning Buffer of
the other kind, each element converted by the target kind's
representable-range coercion (float to int truncates toward zero and
clamps to the target range: the model's single fixed policy). -/
def Buffer.castTo (b : Buffer) (k : Kind) : Buffer :=
  { kind := k, count := b.count,
    storage := some ((nthFrom (stor b) 0 b.count).map (coerce k)),
    owning := true }

/-- Reads elements `s, s+1, ..., s+n-1` of a Buffer through `get`,
threading the Buffer state through each read. -/
def toSeqFrom (b : Buffer) : Nat → Nat → Buffer × List Rat
  | _, 0 => (b, [])
  | s, n + 1 =>
    match b.get (s : Int) with
    | Except.ok q =>
      match toSeqFrom b (s + 1) n with
      | (b2, rest) => (b2, q :: rest)
    | Except.error _ => (b, [])

/-- Modelled from the spec: `toSequence()` — the Buffer's elements in
index order, produced by reading every index through `get`; the
(unchanged) Buffer is returned alongside the sequence. -/
def toSequenceS (b : Buffer) : Buffer × List Rat := toSeqFrom b 0 b.count

theorem setNth_length (l : List Rat) (n : Nat) (x : Rat) :
    (setNth l n x).length = l.length := by
  induction l generalizing n with
  | nil => rfl
  | cons a t ih =>
    cases n with
    | zero => rfl
    | succ m => simp [setNth, ih]

theorem nthD_setNth_self (l : List Rat) (n : Nat) (x : Rat) (h : n < l.length) :
    nthD (setNth l n x) n = x := by
  induction l generalizing n with
  | nil => simp at h
  | cons a t ih =>
    cases n with
    | zero => rfl
    | succ m => exact ih m (by simpa using h)

theorem nthD_replicate (n i : Nat) : nthD (List.replicate n (0 : Rat)) i = 0 := by
  induction n generalizing i with
  | zero => rfl
  | succ m ih =>
    cases i with
    | zero => rfl
    | succ j => simpa [List.replicate, nthD] using ih j

theorem nthFrom_shift (a : Rat) (t : List Rat) (n s : Nat) :
    nthFrom (a :: t) (s + 1) n = nthFrom t s n := by
  induction n generalizing s with
  | zero => rfl
  | succ m ih => simp [nthFrom, nthD, ih]

theorem nthFrom_self (l : List Rat) : nthFrom l 0 l.length = l := by
  induction l with
  | nil => rfl
  | cons a t ih => simp [nthFrom, nthD, nthFrom_shift, ih]

theorem truncToZero_intCast (n : Int) : truncToZero (n : Rat) = n := by
  unfold truncToZero
  split
  · exact Int.floor_intCast n
  · rw [← Int.cast_neg, Int.floor_intCast]
    exact neg_neg n

theorem coerce_of_representable (k : Kind) (q : Rat) (h : representable k q) :
    coerce k q = q := by
  cases k with
  | Float64 => rfl
  | Int32 =>
    obtain ⟨hden, hlo, hhi⟩ := h
    rw [← Rat.coe_int_num_of_den_eq_one hden]
    simp only [coerce, truncToZero_intCast, clampI]
    rw [min_eq_right hhi, max_eq_right hlo]
  | UInt8 =>
    obtain ⟨hden, hlo, hhi⟩ := h
    rw [← Rat.coe_int_num_of_den_eq_one hden]
    simp only [coerce, truncToZero_intCast, clampI]
    rw [min_eq_right hhi, max_eq_right hlo]

theorem toSeqFrom_eq (b : Buffer) (n s : Nat) (h : s + n ≤ b.count) :
    toSeqFrom b s n = (b, nthFrom (stor b) s n) := by
  induction n generalizing s with
  | zero => rfl
  | succ m ih =>
    have hs : (0 : Int) ≤ (s : Int) ∧ (s : Int) < (b.count : Int) := by
      constructor
      · exact Int.natCast_nonneg s
      · exact_mod_cast Nat.lt_of_lt_of_le (Nat.lt_add_of_pos_right (Nat.succ_pos m))
          (by omega)
    simp only [toSeqFrom, Buffer.get, if_pos hs, Int.toNat_natCast,
      ih (s + 1) (by omega), nthFrom]

theorem toSequenceS_eq (b : Buffer) :
    toSequenceS b = (b, nthFrom (stor b) 0 b.count) :=
  toSeqFrom_eq b b.count 0 (by omega)

/-- C2: round-trip — for every kind and value sequence, `fromValues`
followed by `toSequence` yields exactly the input sequence mapped
through the kind's representable-range coercion; that coercion is the
identity on every value representable in the kind; and the resulting
Buffer's count equals the input length. -/
theorem fromValues_toSequence_roundTrip (k : Kind) (xs : List Rat) :
    (toSequenceS (fromValues k xs)).2 = xs.map (coerce k) ∧
    (∀ x : Rat, representable k x → coerce k x = x) ∧
    (fromValues k xs).count = xs.length := by
  refine ⟨?_, fun x => coerce_of_representable k x, rfl⟩
  rw [toSequenceS_eq]
  show nthFrom (stor (fromValues k xs)) 0 (fromValues k xs).count = xs.map (coerce k)
  have h1 : stor (fromValues k xs) = xs.map (coerce k) := rfl
  have h2 : (fromValues k xs).count = (xs.map (coerce k)).length := by
    simp [fromValues]
  rw [h1, h2, nthFrom_self]

theorem fromValues_toSequence_roundTrip_witness :
    (toSequenceS (fromValues Kind.Int32 [3, -7, 255])).2 = [3, -7, 255] ∧
    coerce Kind.Int32 (-7) = -7 ∧
    (fromValues Kind.Int32 [3, -7, 255]).count = 3 := by
  obtain ⟨h1, h2, h3⟩ := fromValues_toSequence_roundTrip Kind.Int32 [3, -7, 255]
  refine ⟨?_, h2 (-7) (by constructor <;> decide), h3⟩
  rw [h1]
  decide

/-- C3: for every kind, count and index, `get` on `allocate(kind,
count)` succeeds (with the zero fill value) exactly on indices in
[0, count) and fails with `OutOfRange` on every index below 0 or at or
above count; `allocate(kind, 0)` is a well-formed zero-length owning
Buffer on which every `get` fails with `OutOfRange`. -/
theorem allocate_get_range (k : Kind) (n : Nat) (i : Int) :
    (0 ≤ i ∧ i < (n : Int) → (allocate k n).get i = Except.ok 0) ∧
    ((i < 0 ∨ (n : Int) ≤ i) → (allocate k n).get i = Except.error Err.OutOfRange) ∧
    (allocate k 0).count = 0 ∧ (allocate k 0).wf ∧ (allocate k 0).owning = true ∧
    (∀ j : Int, (allocate k 0).get j = Except.error Err.OutOfRange) := by
  refine ⟨?_, ?_, rfl, ⟨[], rfl, rfl⟩, rfl, ?_⟩
  · intro h
    have hc : (0 : Int) ≤ i ∧ i < ((allocate k n).count : Int) := h
    simp only [Buffer.get, if_pos hc]
    have : stor (allocate k n) = List.replicate n 0 := rfl
    rw [this, nthD_replicate]
  · intro h
    have hc : ¬((0 : Int) ≤ i ∧ i < ((allocate k n).count : Int)) := by
      show ¬((0 : Int) ≤ i ∧ i < (n : Int))
      omega
    simp only [Buffer.get, if_neg hc]
  · intro j
    have hc : ¬((0 : Int) ≤ j ∧ j < ((allocate k 0).count : Int)) := by
      show ¬((0 : Int) ≤ j ∧ j < ((0 : Nat) : Int))
      omega
    simp only [Buffer.get, if_neg hc]

theorem allocate_get_range_witness :
    (allocate Kind.Float64 2).get 1 = Except.ok 0 ∧
    (allocate Kind.Float64 2).get 2 = Except.error Err.OutOfRange ∧
    (allocate Kind.Float64 2).get (-1) = Except.error Err.OutOfRange ∧
    (allocate Kind.Float64 0).get 0 = Except.error Err.OutOfRange := by
  refine ⟨(allocate_get_range Kind.Float64 2 1).1 (by decide),
    (allocate_get_range Kind.Float64 2 2).2.1 (Or.inr (by decide)),
    (allocate_get_range Kind.Float64 2 (-1)).2.1 (Or.inl (by decide)),
    (allocate_get_range Kind.Float64 2 0).2.2.2.2.2 0⟩

/-- C4: for every Buffer and slice parameters, `slice(start, length,
stride)` fails with `InvalidRange` whenever
`start + (length-1)*stride ≥ count` or `stride = 0`; and a slice is
never silently clamped or wrapped: whenever `slice` succeeds, the View
carries exactly the requested offset, length and stride. -/
theorem slice_invalidRange_never_clamps (b : Buffer) (start len stride : Int) :
    (((b.count : Int) ≤ start + (len - 1) * stride ∨ stride = 0) →
      b.slice start len stride = Except.error Err.InvalidRange) ∧
    (∀ v : View, b.slice start len stride = Except.ok v →
      v.offset = start ∧ v.length = len ∧ v.stride = stride) := by
  constructor
  · intro h
    have hc : stride = 0 ∨ stride < 0 ∨ start < 0 ∨ len < 1 ∨
        (b.count : Int) ≤ start + (len - 1) * stride := by tauto
    simp only [Buffer.slice, if_pos hc]
  · intro v hv
    unfold Buffer.slice at hv
    split at hv
    · exact absurd hv (by simp)
    · cases hv
      exact ⟨rfl, rfl, rfl⟩

theorem slice_invalidRange_never_clamps_witness :
    (allocate Kind.Int32 4).slice 0 5 1 = Except.error Err.InvalidRange ∧
    (allocate Kind.Int32 4).slice 1 2 0 = Except.error Err.InvalidRange ∧
    View.offset { offset := 1, length := 2, stride := 1 } = 1 ∧
    View.length { offset := 1, length := 2, stride := 1 } = 2 ∧
    View.stride { offset := 1, length := 2, stride := 1 } = 1 := by
  refine ⟨(slice_invalidRange_never_clamps (allocate Kind.Int32 4) 0 5 1).1
      (Or.inl (by decide)),
    (slice_invalidRange_never_clamps (allocate Kind.Int32 4) 1 2 0).1
      (Or.inr rfl), ?_⟩
  exact (slice_invalidRange_never_clamps (allocate Kind.Int32 4) 1 2 1).2
    { offset := 1, length := 2, stride := 1 } rfl

/-- C5: aliasing write-through — for every well-formed Buffer with at
least 5 elements, `slice(2, 3, 1)` succeeds, a `set(0, x)` through the
resulting View succeeds, and afterwards `get(2)` on the Buffer returns
the written value (exactly `x` whenever `x` is representable in the
Buffer's kind); more generally, every View whose logical index maps to
physical cell 2 reads the written value through the shared storage. -/
theorem view_set_visible_through_buffer (b : Buffer) (x : Rat)
    (h5 : 5 ≤ b.count) (hwf : b.wf) :
    ∃ v b2, b.slice 2 3 1 = Except.ok v ∧ v.set 0 x b = Except.ok b2 ∧
      b2.get 2 = Except.ok (coerce b.kind x) ∧
      (representable b.kind x → b2.get 2 = Except.ok x) ∧
      (∀ (w : View) (j : Int), 0 ≤ j → j < w.length → w.phys j = 2 →
        w.get j b2 = Except.ok (coerce b.kind x)) := by
  obtain ⟨l, hl, hlen⟩ := hwf
  have hstor : stor b = l := by simp [stor, hl]
  have hin2 : (0 : Int) ≤ 2 ∧ (2 : Int) < (b.count : Int) := ⟨by omega, by omega⟩
  have hslice : b.slice 2 3 1 = Except.ok ⟨2, 3, 1⟩ := by
    have hc : ¬((1 : Int) = 0 ∨ (1 : Int) < 0 ∨ (2 : Int) < 0 ∨ (3 : Int) < 1 ∨
        (b.count : Int) ≤ 2 + (3 - 1) * 1) := by
      push_neg
      refine ⟨one_ne_zero, by omega, by omega, by omega, by omega⟩
    simp only [Buffer.slice, if_neg hc]
  refine ⟨⟨2, 3, 1⟩,
    Buffer.mk b.kind b.count (some (setNth (stor b) 2 (coerce b.kind x))) b.owning,
    hslice, ?_, ?_, ?_, ?_⟩
  case _ =>
    have hphys : View.phys ⟨2, 3, 1⟩ 0 = 2 := by simp [View.phys]
    simp only [View.set, hphys]
    rw [if_pos ⟨le_refl (0 : Int), by norm_num⟩]
    simp only [Buffer.set, if_pos hin2]
    rfl
  all_goals
    have hget : Buffer.get
        (Buffer.mk b.kind b.count (some (setNth (stor b) 2 (coerce b.kind x))) b.owning) 2 =
        Except.ok (coerce b.kind x) := by
      simp only [Buffer.get, if_pos hin2]
      show Except.ok (nthD (setNth (stor b) 2 (coerce b.kind x)) (Int.toNat 2)) = _
      rw [show Int.toNat 2 = 2 from rfl,
        nthD_setNth_self (stor b) 2 (coerce b.kind x) (by rw [hstor]; omega)]
  case _ => exact hget
  case _ =>
    intro hrep
    rw [hget, coerce_of_representable b.kind x hrep]
  case _ =>
    intro w j hj0 hjlen hjphys
    simp only [View.get]
    rw [if_pos (⟨hj0, hjlen⟩ : 0 ≤ j ∧ j < w.length), hjphys]
    exact hget

theorem view_set_visible_through_buffer_witness :
    ∃ v b2, (fromValues Kind.Float64 [1, 2, 3, 4, 5]).slice 2 3 1 = Except.ok v ∧
      v.set 0 9 (fromValues Kind.Float64 [1, 2, 3, 4, 5]) = Except.ok b2 ∧
      b2.get 2 = Except.ok 9 := by
  obtain ⟨v, b2, h1, h2, h3, h4, h5⟩ :=
    view_set_visible_through_buffer (fromValues Kind.Float64 [1, 2, 3, 4, 5]) 9
      (by decide) ⟨[1, 2, 3, 4, 5].map (coerce Kind.Float64), rfl, by decide⟩
  exact ⟨v, b2, h1, h2, h4 True.intro⟩

theorem nthD_nthFrom (l : List Rat) (n : Nat) :
    ∀ (s i : Nat), i < n → nthD (nthFrom l s n) i = nthD l (s + i) := by
  induction n with
  | zero => intro s i h; omega
  | succ m ih =>
    intro s i h
    cases i with
    | zero => rfl
    | succ j =>
      show nthD (nthFrom l (s + 1) m) j = nthD l (s + (j + 1))
      rw [ih (s + 1) j (by omega)]
      congr 1
      omega

/-- C8: `toSequence` never mutates its Buffer — the Buffer returned
alongside the sequence is the input Buffer itself (same kind, count and
elements), the produced sequence lists the Buffer's cells in index
order (cell i of the sequence is cell i of the storage), and a repeated
call yields the same sequence again. -/
theorem toSequence_pure (b : Buffer) :
    (toSequenceS b).1 = b ∧
    (toSequenceS b).2 = nthFrom (stor b) 0 b.count ∧
    (∀ i : Nat, i < b.count → nthD ((toSequenceS b).2) i = nthD (stor b) i) ∧
    (toSequenceS ((toSequenceS b).1)).2 = (toSequenceS b).2 := by
  have he := toSequenceS_eq b
  refine ⟨by rw [he], by rw [he], ?_, ?_⟩
  · intro i hi
    rw [he]
    show nthD (nthFrom (stor b) 0 b.count) i = nthD (stor b) i
    rw [nthD_nthFrom (stor b) b.count 0 i hi, Nat.zero_add]
  · show (toSequenceS (toSequenceS b).1).2 = (toSequenceS b).2
    rw [he]
    show (toSequenceS b).2 = nthFrom (stor b) 0 b.count
    rw [he]

theorem toSequence_pure_witness :
    (toSequenceS (fromValues Kind.UInt8 [5, 6])).1 = fromValues Kind.UInt8 [5, 6] ∧
    nthD ((toSequenceS (fromValues Kind.UInt8 [5, 6])).2) 1 =
      nthD (stor (fromValues Kind.UInt8 [5, 6])) 1 := by
  obtain ⟨h1, h2, h3, h4⟩ := toSequence_pure (fromValues Kind.UInt8 [5, 6])
  exact ⟨h1, h3 1 (by decide)⟩

theorem truncToZero_pos_39_10 : truncToZero (39 / 10) = 3 := by
  unfold truncToZero
  rw [if_pos (by norm_num)]
  norm_num [Int.floor_eq_iff]

theorem truncToZero_neg_39_10 : truncToZero (-(39 / 10)) = -3 := by
  unfold truncToZero
  rw [if_neg (by norm_num), neg_neg]
  norm_num [Int.floor_eq_iff]

theorem coerce_int32_in_range (q : Rat) (hlo : -(2 ^ 31) ≤ truncToZero q)
    (hhi : truncToZero q ≤ 2 ^ 31 - 1) :
    coerce Kind.Int32 q = ((truncToZero q : Int) : Rat) := by
  simp only [coerce, clampI]
  rw [min_eq_right hhi, max_eq_right hlo]

/-- C7: the Float64-to-Int32 conversion of `castTo` follows the model's
single fixed policy — truncation toward zero (clamped to the target's
representable range): a cast Buffer has the target kind and its cells
are the source values under that coercion; on any value whose
truncation lies in the Int32 range the coercion is exactly
truncate-toward-zero, so 3.9 converts to 3 and -3.9 to -3, and the
maximal representable Int32 value 2147483647 = 2^31 - 1 converts to
itself. -/
theorem castTo_float64_int32_truncates_toward_zero (xs : List Rat) :
    (Buffer.castTo (fromValues Kind.Float64 xs) Kind.Int32).kind = Kind.Int32 ∧
    stor (Buffer.castTo (fromValues Kind.Float64 xs) Kind.Int32) =
      (xs.map (coerce Kind.Float64)).map (coerce Kind.Int32) ∧
    (∀ x : Rat, coerce Kind.Float64 x = x) ∧
    (∀ q : Rat, -(2 ^ 31) ≤ truncToZero q → truncToZero q ≤ 2 ^ 31 - 1 →
      coerce Kind.Int32 q = ((truncToZero q : Int) : Rat)) ∧
    truncToZero (39 / 10) = 3 ∧ truncToZero (-(39 / 10)) = -3 ∧
    coerce Kind.Int32 (39 / 10) = 3 ∧ coerce Kind.Int32 (-(39 / 10)) = -3 ∧
    coerce Kind.Int32 2147483647 = 2147483647 := by
  refine ⟨rfl, ?_, fun x => rfl, coerce_int32_in_range,
    truncToZero_pos_39_10, truncToZero_neg_39_10, ?_, ?_, ?_⟩
  · show (nthFrom (stor (fromValues Kind.Float64 xs)) 0
        (fromValues Kind.Float64 xs).count).map (coerce Kind.Int32) = _
    have h1 : stor (fromValues Kind.Float64 xs) = xs.map (coerce Kind.Float64) := rfl
    have h2 : (fromValues Kind.Float64 xs).count =
        (xs.map (coerce Kind.Float64)).length := by simp [fromValues]
    rw [h1, h2, nthFrom_self]
  · rw [coerce_int32_in_range (39 / 10) (by rw [truncToZero_pos_39_10]; norm_num)
      (by rw [truncToZero_pos_39_10]; norm_num), truncToZero_pos_39_10]
    norm_num
  · rw [coerce_int32_in_range (-(39 / 10)) (by rw [truncToZero_neg_39_10]; norm_num)
      (by rw [truncToZero_neg_39_10]; norm_num), truncToZero_neg_39_10]
    norm_num
  · apply coerce_of_representable
    refine ⟨by norm_num, by norm_num, by norm_num⟩

theorem castTo_float64_int32_truncates_toward_zero_witness :
    stor (Buffer.castTo (fromValues Kind.Float64 [39 / 10, -(39 / 10), 2147483647])
      Kind.Int32) = [3, -3, 2147483647] ∧
    coerce Kind.Int32 (39 / 10) = ((truncToZero (39 / 10) : Int) : Rat) := by
  obtain ⟨-, h2, h3, h4, -, -, h7, h8, h9⟩ :=
    castTo_float64_int32_truncates_toward_zero [39 / 10, -(39 / 10), 2147483647]
  constructor
  · rw [h2]
    simp only [List.map_cons, List.map_nil]
    rw [h3, h3, h3, h7, h8, h9]
  · exact h4 (39 / 10) (by rw [truncToZero_pos_39_10]; norm_num)
      (by rw [truncToZero_pos_39_10]; norm_num)

theorem nthFrom_length (l : List Rat) : ∀ (n s : Nat), (nthFrom l s n).length = n := by
  intro n
  induction n with
  | zero => intro s; rfl
  | succ m ih => intro s; simp [nthFrom, ih]

theorem set_ok_fields (b b2 : Buffer) (i : Int) (x : Rat)
    (h : b.set i x = Except.ok b2) :
    b2.kind = b.kind ∧ b2.count = b.count ∧ b2.owning = b.owning ∧
    b2.storage = some (setNth (stor b) i.toNat (coerce b.kind x)) := by
  unfold Buffer.set at h
  split at h
  · cases h
    exact ⟨rfl, rfl, rfl, rfl⟩
  · cases h

theorem wf_of_set_fields (b b2 : Buffer) (i : Int) (x : Rat)
    (hc : b2.count = b.count)
    (hs : b2.storage = some (setNth (stor b) i.toNat (coerce b.kind x)))
    (hwf : b.wf) : b2.wf := by
  obtain ⟨l, hl, hlen⟩ := hwf
  refine ⟨setNth (stor b) i.toNat (coerce b.kind x), hs, ?_⟩
  rw [setNth_length]
  simp [stor, hl, hlen, hc]

theorem viewSet_ok (v : View) (b b2 : Buffer) (i : Int) (x : Rat)
    (h : v.set i x b = Except.ok b2) : b.set (v.phys i) x = Except.ok b2 := by
  unfold View.set at h
  split at h
  · exact h
  · cases h

/-- C9: the Buffer invariant is preserved by every operation — each
constructor (`allocate`, `fromValues`, `wrap`, `castTo`) yields a
well-formed Buffer (count ≥ 0 holds by the count's type) of the
requested kind; a successful `set`, directly or through a View, keeps
the kind, the count, the owning flag and well-formedness; `toSequence`
returns the Buffer unchanged; and a well-formed Buffer with positive
count has a non-null storage pointer. -/
theorem buffer_invariants_preserved :
    (∀ (k : Kind) (n : Nat), (allocate k n).wf ∧ (allocate k n).kind = k ∧
      (allocate k n).count = n ∧ (allocate k n).storage ≠ none) ∧
    (∀ (k : Kind) (xs : List Rat), (fromValues k xs).wf ∧ (fromValues k xs).kind = k) ∧
    (∀ (k : Kind) (l : List Rat), (wrap k l).wf ∧ (wrap k l).kind = k) ∧
    (∀ (b : Buffer) (k : Kind), (Buffer.castTo b k).wf ∧ (Buffer.castTo b k).kind = k ∧
      (Buffer.castTo b k).count = b.count) ∧
    (∀ (b b2 : Buffer) (i : Int) (x : Rat), b.set i x = Except.ok b2 →
      b2.kind = b.kind ∧ b2.count = b.count ∧ b2.owning = b.owning ∧ (b.wf → b2.wf)) ∧
    (∀ (v : View) (b b2 : Buffer) (i : Int) (x : Rat), v.set i x b = Except.ok b2 →
      b2.kind = b.kind ∧ b2.count = b.count ∧ (b.wf → b2.wf)) ∧
    (∀ b : Buffer, (toSequenceS b).1 = b) ∧
    (∀ b : Buffer, b.wf → 0 < b.count → b.storage ≠ none) := by
  refine ⟨?_, ?_, ?_, ?_, ?_, ?_, ?_, ?_⟩
  · exact fun k n => ⟨⟨List.replicate n 0, rfl, by simp [allocate]⟩, rfl, rfl,
      by simp [allocate]⟩
  · exact fun k xs => ⟨⟨xs.map (coerce k), rfl, by simp [fromValues]⟩, rfl⟩
  · exact fun k l => ⟨⟨l, rfl, rfl⟩, rfl⟩
  · exact fun b k => ⟨⟨(nthFrom (stor b) 0 b.count).map (coerce k), rfl,
      by simp [Buffer.castTo, nthFrom_length]⟩, rfl, rfl⟩
  · intro b b2 i x h
    obtain ⟨hk, hc, ho, hs⟩ := set_ok_fields b b2 i x h
    exact ⟨hk, hc, ho, wf_of_set_fields b b2 i x hc hs⟩
  · intro v b b2 i x h
    obtain ⟨hk, hc, ho, hs⟩ := set_ok_fields b b2 (v.phys i) x (viewSet_ok v b b2 i x h)
    exact ⟨hk, hc, wf_of_set_fields b b2 (v.phys i) x hc hs⟩
  · intro b
    rw [toSequenceS_eq]
  · intro b hwf _
    obtain ⟨l, hl, -⟩ := hwf
    simp [hl]

theorem buffer_invariants_preserved_witness :
    (allocate Kind.Float64 3).wf ∧
    (Buffer.mk Kind.UInt8 2 (some [7, 6]) true).kind = (fromValues Kind.UInt8 [5, 6]).kind ∧
    (Buffer.mk Kind.UInt8 2 (some [7, 6]) true).wf := by
  obtain ⟨h1, h2, h3, h4, h5, h6, h7, h8⟩ := buffer_invariants_preserved
  obtain ⟨hk, hc, ho, hw⟩ :=
    h5 (fromValues Kind.UInt8 [5, 6]) (Buffer.mk Kind.UInt8 2 (some [7, 6]) true) 0 7 rfl
  exact ⟨(h1 Kind.Float64 3).1, hk,
    hw ⟨[5, 6].map (coerce Kind.UInt8), rfl, by simp [fromValues]⟩⟩

/-- Lifecycle events of one Buffer and its Views: create a View over
the Buffer, destroy a View, destroy the Buffer handle itself. -/
inductive Ev where
  | mkView
  | dropView
  | dropBuf
  deriving DecidableEq

/-- Modelled from the spec: the instrumented lifecycle state of one
Buffer (`block_source.c`, which carries the reference-counted
ownership, is not among the checked sources) — the Buffer's owning
flag, whether the Buffer handle is still alive, the number of live
Views over it, and how many times its storage has been released (the
spec's instrumented-allocator free count). -/
structure Sys where
  owning : Bool
  handleLive : Bool
  views : Nat
  freed : Nat
  deriving DecidableEq

/-- Modelled from the spec: which lifecycle events are legal — a View
is created from a live Buffer handle; only an existing View can be
destroyed; the Buffer handle is destroyed at most once and, because
every View holds a reference-counted relation that keeps its parent
alive, only after all Views over it are gone. -/
def evOk (s : Sys) : Ev → Bool
  | Ev.mkView => s.handleLive
  | Ev.dropView => s.views != 0
  | Ev.dropBuf => s.handleLive && s.views == 0

/-- Modelled from the spec: the effect of a lifecycle event.
Destroying a View only decrements the View count and never touches
storage; destroying the Buffer handle releases the storage exactly
when the Buffer owns it. -/
def stepEv (s : Sys) : Ev → Sys
  | Ev.mkView => { s with views := s.views + 1 }
  | Ev.dropView => { s with views := s.views - 1 }
  | Ev.dropBuf => Sys.mk s.owning false s.views (if s.owning then s.freed + 1 else s.freed)

/-- A trace of lifecycle events each legal in the state it fires in. -/
def validFromB (s : Sys) : List Ev → Bool
  | [] => true
  | e :: t => evOk s e && validFromB (stepEv s e) t

/-- Run a trace of lifecycle events. -/
def runTrace (s : Sys) : List Ev → Sys
  | [] => s
  | e :: t => runTrace (stepEv s e) t

/-- Initial lifecycle state of a freshly constructed Buffer. -/
def initSys (b : Buffer) : Sys :=
  { owning := b.owning, handleLive := true, views := 0, freed := 0 }

/-- Inductive lifecycle invariant: no release while the handle lives;
after the handle is gone, exactly one release for an owner and none
otherwise; live Views imply a live handle. -/
def SysInv (s : Sys) : Prop :=
  (s.handleLive = true → s.freed = 0) ∧
  (s.handleLive = false → s.freed = if s.owning then 1 else 0) ∧
  (0 < s.views → s.handleLive = true)

theorem sysInv_step (s : Sys) (e : Ev) (hok : evOk s e = true) (h : SysInv s) :
    SysInv (stepEv s e) := by
  obtain ⟨h1, h2, h3⟩ := h
  cases e with
  | mkView =>
    simp only [evOk] at hok
    exact ⟨h1, h2, fun _ => hok⟩
  | dropView =>
    refine ⟨h1, h2, fun hv => h3 ?_⟩
    simp only [stepEv] at hv
    omega
  | dropBuf =>
    simp only [evOk, Bool.and_eq_true, beq_iff_eq] at hok
    obtain ⟨hlive, hviews⟩ := hok
    refine ⟨fun hh => absurd hh (by simp [stepEv]), fun _ => ?_, fun hv => ?_⟩
    · have hf : s.freed = 0 := h1 hlive
      show (if s.owning = true then s.freed + 1 else s.freed) =
        if s.owning = true then 1 else 0
      rw [hf]
    · exfalso
      have hv2 : 0 < s.views := hv
      omega

theorem owning_stepEv (s : Sys) (e : Ev) : (stepEv s e).owning = s.owning := by
  cases e <;> rfl

theorem owning_runTrace (t : List Ev) : ∀ s : Sys, (runTrace s t).owning = s.owning := by
  induction t with
  | nil => intro s; rfl
  | cons e t ih =>
    intro s
    show (runTrace (stepEv s e) t).owning = s.owning
    rw [ih (stepEv s e), owning_stepEv]

theorem sysInv_runTrace (t : List Ev) : ∀ s : Sys, SysInv s → validFromB s t = true →
    SysInv (runTrace s t) := by
  induction t with
  | nil => intro s h _; exact h
  | cons e t ih =>
    intro s h hv
    simp only [validFromB, Bool.and_eq_true] at hv
    exact ih (stepEv s e) (sysInv_step s e hv.1 h) hv.2

/-- C6: ownership discipline — along every legal lifecycle trace of a
Buffer, the storage is released at most once, never for a non-owning
(wrapped) Buffer, exactly once when the owning Buffer's handle has
been destroyed (which a legal trace permits only after all Views are
gone), and never while a View is still alive; moreover a single
View-destruction step never changes the free count, the owning flag or
the handle's liveness. -/
theorem ownership_discipline (b : Buffer) (t : List Ev)
    (hv : validFromB (initSys b) t = true) :
    (runTrace (initSys b) t).freed ≤ 1 ∧
    (b.owning = false → (runTrace (initSys b) t).freed = 0) ∧
    ((runTrace (initSys b) t).handleLive = false → b.owning = true →
      (runTrace (initSys b) t).freed = 1) ∧
    (0 < (runTrace (initSys b) t).views → (runTrace (initSys b) t).freed = 0) ∧
    (∀ s : Sys, (stepEv s Ev.dropView).freed = s.freed ∧
      (stepEv s Ev.dropView).owning = s.owning ∧
      (stepEv s Ev.dropView).handleLive = s.handleLive) := by
  have hinit : SysInv (initSys b) :=
    ⟨fun _ => rfl, fun hf => by simp [initSys] at hf, fun _ => rfl⟩
  obtain ⟨h1, h2, h3⟩ := sysInv_runTrace t (initSys b) hinit hv
  have hown : (runTrace (initSys b) t).owning = b.owning :=
    owning_runTrace t (initSys b)
  refine ⟨?_, ?_, ?_, ?_, fun s => ⟨rfl, rfl, rfl⟩⟩
  · cases hh : (runTrace (initSys b) t).handleLive with
    | true => rw [h1 hh]; omega
    | false => rw [h2 hh]; split <;> omega
  · intro ho
    cases hh : (runTrace (initSys b) t).handleLive with
    | true => exact h1 hh
    | false =>
      rw [h2 hh, hown, ho]
      simp
  · intro hh ho
    rw [h2 hh, hown, ho]
    simp
  · intro hv2
    exact h1 (h3 hv2)

theorem ownership_discipline_witness :
    (runTrace (initSys (allocate Kind.Float64 1))
      [Ev.mkView, Ev.dropView, Ev.dropBuf]).freed = 1 :=
  (ownership_discipline (allocate Kind.Float64 1) [Ev.mkView, Ev.dropView, Ev.dropBuf]
    (by decide)).2.2.1 (by decide) rfl
